import Mathlib

/-!
Verification of the scrape-extract-reconcile pipeline in
`scraper/scrape_te_total_vehicle_sales.py`.

The Python/pandas/JavaScript code is shallowly embedded as executable Lean
definitions:

* panels (pandas DataFrames with columns `country`, `date`, `value`) are
  lists of `(country, date, value)` triples; `date` is the calendar month of
  the observation, encoded as the month index `year * 12 + (month - 1)`
  (an encoding of the month-start timestamp that is injective and monotone,
  which is all the pipeline uses);
* `value` is `ℚ` (floats never leave the range where float arithmetic is
  exact here: the pipeline only ever copies and compares values);
* pandas `sort_values` is modelled as a stable insertion sort.  For the
  key-column sorts (`sort_values(["country","date"])`) pandas uses a stable
  lexsort; the single-column `sort_values("date")` defaults to quicksort,
  which numpy implements as insertion sort (stable) on the small slices the
  cap in `extract_highcharts_series` permits;
* `drop_duplicates` (default `keep="first"`, and `keep="last"` in the merge)
  are modelled by `dropDupKeepFirst` / `dropDupKeepLast`;
* the JavaScript extraction snippet is modelled over an explicit object
  graph of charts/series/points, with `null` as `Option.none` and JavaScript
  numbers (which include `NaN`, accepted by `typeof x === 'number'`) as
  `JSNum`;
* the selenium driver is abstracted into an oracle giving each attempt's
  outcome: either some step raised, or the page rendered with a given
  charting-runtime state;
* exceptions are `Except`, and the in-place pandas column assignment in
  `merge_with_existing` is modelled by an explicit frame heap.
-/

namespace VehicleScraper

/-! ## Slug Resolver (source lines 48-88) -/

/-- `SLUG_OVERRIDES` table, source lines 48-51. -/
def SLUG_OVERRIDES : List (String × String) :=
  [("United States", "united-states"), ("South Africa", "south-africa")]

/-- `TARGET_COUNTRIES`, source lines 30-46. -/
def TARGET_COUNTRIES : List String :=
  ["Australia", "Brazil", "Chile", "China", "Colombia", "India", "Malaysia",
   "Mexico", "Philippines", "Russia", "South Africa", "Spain", "Thailand",
   "Turkey", "United States"]

/-- Python `str.strip()`: drop leading and trailing whitespace. -/
def pyStrip (s : String) : String :=
  ⟨((s.data.dropWhile Char.isWhitespace).reverse.dropWhile Char.isWhitespace).reverse⟩

/-- Python `str.lower()` on the ASCII names this scraper uses. -/
def pyLower (s : String) : String :=
  ⟨s.data.map Char.toLower⟩

/-- Python `str.replace(" ", "-")`: the pattern is a single character, so the
replacement is a character map. -/
def pySpaceToHyphen (s : String) : String :=
  ⟨s.data.map (fun c => if c = ' ' then '-' else c)⟩

/-- `slugify_country`, source lines 81-84: override verbatim, else
`country.strip().lower().replace(" ", "-")`. -/
def slugify_country (country : String) : String :=
  match SLUG_OVERRIDES.find? (fun p => p.1 == country) with
  | some p => p.2
  | none => pySpaceToHyphen (pyLower (pyStrip country))

/-! ## Calendar: milliseconds since the UTC epoch to the calendar month.

`pd.to_datetime(ts, unit="ms", utc=True)` followed by `.dt.to_period("M")`
truncates to the UTC calendar month.  `civilFromDays` is the standard
proleptic-Gregorian civil-from-days conversion. -/

/-- Milliseconds per day. -/
def MS_PER_DAY : Int := 86400000

/-- Days since 1970-01-01 to `(year, month, day)` in the proleptic Gregorian
calendar (floored divisions throughout). -/
def civilFromDays (z0 : Int) : Int × Int × Int :=
  let z := z0 + 719468
  let era := Int.fdiv z 146097
  let doe := z - era * 146097
  let yoe := Int.fdiv (doe - Int.fdiv doe 1460 + Int.fdiv doe 36524 - Int.fdiv doe 146096) 365
  let y := yoe + era * 400
  let doy := doe - (365 * yoe + Int.fdiv yoe 4 - Int.fdiv yoe 100)
  let mp := Int.fdiv (5 * doy + 2) 153
  let d := doy - Int.fdiv (153 * mp + 2) 5 + 1
  let m := mp + (if mp < 10 then 3 else (-9 : Int))
  (y + (if m ≤ 2 then 1 else 0), m, d)

/-- Millisecond UTC timestamp to its calendar month, encoded as the month
index `year * 12 + (month - 1)`. -/
def msToMonthIdx (ms : Int) : Int :=
  let c := civilFromDays (Int.fdiv ms MS_PER_DAY)
  c.1 * 12 + (c.2.1 - 1)

/-! ## Panels -/

/-- One Observation: `(country, date, value)` — one row of the panel frames.
After month truncation `date` holds the month index. -/
abbrev Obs := String × Int × ℚ

/-- The `(country, date)` key columns. -/
def obsKey (r : Obs) : String × Int := (r.1, r.2.1)

/-- The `value` column. -/
def obsVal (r : Obs) : ℚ := r.2.2

/-- Code-point lexicographic `≤` on strings as character lists (the order
Python and pandas use on `str` columns). -/
def strLE : List Char → List Char → Bool
  | [], _ => true
  | _ :: _, [] => false
  | x :: xs, y :: ys =>
    if x.toNat < y.toNat then true
    else if y.toNat < x.toNat then false
    else strLE xs ys

/-- Lexicographic `≤` on `(country, date)` keys, as used by
`sort_values(["country", "date"])`. -/
def keyLE (a b : String × Int) : Bool :=
  if a.1 = b.1 then decide (a.2 ≤ b.2) else strLE a.1.data b.1.data

/-- Row comparison on the key columns only (rows with equal keys tie, so a
stable sort preserves their relative order). -/
def obsLE (a b : Obs) : Bool := keyLE (obsKey a) (obsKey b)

/-! ## pandas primitives -/

/-- Insert one element into a sorted list, after any element it ties with. -/
def insertSorted (le : α → α → Bool) (r : α) : List α → List α
  | [] => [r]
  | s :: l => if le r s then r :: s :: l else s :: insertSorted le r l

/-- Stable insertion sort, modelling `sort_values`. -/
def stableSort (le : α → α → Bool) : List α → List α
  | [] => []
  | r :: l => insertSorted le r (stableSort le l)

/-- Worker for `drop_duplicates(..., keep="first")`: keep a row iff its key
has not been seen on an earlier row. -/
def dropDupSeen [DecidableEq κ] (key : α → κ) (seen : List κ) : List α → List α
  | [] => []
  | r :: l =>
    if key r ∈ seen then dropDupSeen key seen l
    else r :: dropDupSeen key (key r :: seen) l

/-- pandas `drop_duplicates` with the default `keep="first"` policy, on the
key computed by `key` (with `key = id` this is the whole-row version). -/
def dropDupKeepFirst [DecidableEq κ] (key : α → κ) (l : List α) : List α :=
  dropDupSeen key [] l

/-- pandas `drop_duplicates(..., keep="last")`: keep a row iff its key does
not occur again later. -/
def dropDupKeepLast [DecidableEq κ] (key : α → κ) : List α → List α
  | [] => []
  | r :: l =>
    if l.any (fun s => decide (key s = key r)) then dropDupKeepLast key l
    else r :: dropDupKeepLast key l

/-! ## Series Extractor (source lines 189-218)

The JavaScript snippet walks `Highcharts.charts`; `null` entries are skipped,
as are series that are empty, internal, or the navigator series.  Points
whose `x` and `y` both satisfy `typeof _ === 'number'` (NaN included) are
pushed onto one flat `results` array; after each series the snippet does
`if (results.length > 10) return results;`. -/

/-- A JavaScript value as tested by `typeof v === 'number'`: not a number at
all, the number `NaN`, or an actual numeric value. -/
inductive JSNum (α : Type) where
  | notNum : JSNum α
  | nan : JSNum α
  | num : α → JSNum α
deriving DecidableEq

/-- `typeof v === 'number'` (true for `NaN`). -/
def jsIsNumber : JSNum α → Bool
  | .notNum => false
  | _ => true

/-- The numeric payload; `NaN` has none (pandas turns it into `NaT`/`NaN`,
which `dropna` removes). -/
def jsToOpt : JSNum α → Option α
  | .num a => some a
  | _ => none

/-- One Highcharts point: `p.x` (epoch milliseconds) and `p.y`. -/
structure JSPoint where
  x : JSNum Int
  y : JSNum ℚ
deriving DecidableEq

/-- One Highcharts series: its `points` array (entries may be `null`) and the
`options.isInternal` / `options.id === 'navigator'` flags. -/
structure JSSeries where
  points : List (Option JSPoint)
  isInternal : Bool
  idIsNavigator : Bool
deriving DecidableEq

/-- The charting runtime: `Highcharts.charts`, where a chart entry may be
`null` and a chart's series array entries may be `null`.  A chart whose
`series` field is `null` behaves like one with no series. -/
abbrev ChartsState := List (Option (List (Option JSSeries)))

/-- A pushed `[p.x, p.y]` pair: `none` components are `NaN` values that
passed the `typeof` test. -/
abbrev RawPair := Option Int × Option ℚ

/-- The inner loop over `s.points`: push every point whose coordinates are
both numbers. -/
def collectSeriesPoints (ps : List (Option JSPoint)) : List RawPair :=
  ps.filterMap (fun po =>
    match po with
    | none => none
    | some p =>
      if jsIsNumber p.x && jsIsNumber p.y then some (jsToOpt p.x, jsToOpt p.y)
      else none)

/-- The loop over one chart's series.  Returns the grown accumulator and
whether `return results` fired (`results.length > 10` after a series). -/
def scanSeriesList (acc : List RawPair) : List (Option JSSeries) → List RawPair × Bool
  | [] => (acc, false)
  | none :: rest => scanSeriesList acc rest
  | some s :: rest =>
    if s.points.isEmpty then scanSeriesList acc rest
    else if s.isInternal || s.idIsNavigator then scanSeriesList acc rest
    else
      let acc2 := acc ++ collectSeriesPoints s.points
      if 10 < acc2.length then (acc2, true) else scanSeriesList acc2 rest

/-- The loop over `Highcharts.charts`; a fired cap aborts the whole scan. -/
def scanCharts (acc : List RawPair) : ChartsState → List RawPair
  | [] => acc
  | none :: rest => scanCharts acc rest
  | some sl :: rest =>
    match scanSeriesList acc sl with
    | (acc2, true) => acc2
    | (acc2, false) => scanCharts acc2 rest

/-- The value of the JavaScript snippet in `extract_highcharts_series`. -/
def extractRawPoints (charts : ChartsState) : List RawPair :=
  scanCharts [] charts

/-- `pd.to_datetime(ts, unit="ms", utc=True)` on a numeric `ts`; `NaN`
becomes `NaT` (both are `none` here). -/
def toDatetimeMs (x : Option Int) : Option Int := x

/-- Source line 217: `df.drop(columns=["ts"]).dropna().drop_duplicates()
.sort_values("date")` — drop rows with a null date or value, drop exact
duplicate `(date, value)` rows keeping the first, sort ascending by date. -/
def cleanSeries (pts : List RawPair) : List (Int × ℚ) :=
  stableSort (fun a b => decide (a.1 ≤ b.1))
    (dropDupKeepFirst id
      (pts.filterMap (fun p =>
        match toDatetimeMs p.1, p.2 with
        | some d, some v => some (d, v)
        | _, _ => none)))

/-- `extract_highcharts_series`, source lines 189-218: run the snippet,
return `None` when it produced no points, else the cleaned frame. -/
def extract_highcharts_series (charts : ChartsState) : Option (List (Int × ℚ)) :=
  let pts := extractRawPoints charts
  if pts.isEmpty then none else some (cleanSeries pts)

/-! ## Normalizer tail of `scrape_country` (source lines 250-255) -/

/-- Source lines 251-255: truncate `date` to its calendar month, attach the
`country` column, `drop_duplicates(subset=["country", "date"])` (default
`keep="first"`), and select the `country, date, value` columns. -/
def monthNormalize (country : String) (df : List (Int × ℚ)) : List Obs :=
  dropDupKeepFirst obsKey (df.map (fun p => (country, msToMonthIdx p.1, p.2)))

/-- The whole normalizer: what `scrape_country` turns a raw extraction's
point list into. -/
def normalize_points (country : String) (pts : List RawPair) : List Obs :=
  monthNormalize country (cleanSeries pts)

/-! ## Per-Entity Retry Controller (source lines 221-262)

Navigation, the body wait, readiness, range selection and script evaluation
are driver effects; an attempt's interaction with them is abstracted as an
oracle value per attempt index: either some step raised (all exceptions are
caught by the `except` clause at line 257), or the page rendered and the
charting runtime held a given state at extraction time. -/

/-- Outcome of the driver-facing part of one attempt. -/
inductive AttemptOutcome where
  | raised : String → AttemptOutcome
  | rendered : ChartsState → AttemptOutcome

/-- The `for attempt in range(retry + 1)` loop.  First component: the
returned frame (`none` for the `return None` paths and for falling off the
loop); second component: how many attempts were started. -/
def scrapeAttempts (att : Nat → AttemptOutcome) (country : String) :
    Nat → Nat → Option (List Obs) × Nat
  | _, 0 => (none, 0)
  | attempt, n + 1 =>
    match att attempt with
    | .raised _ =>
      let r := scrapeAttempts att country (attempt + 1) n
      (r.1, r.2 + 1)
    | .rendered charts =>
      match extract_highcharts_series charts with
      | none => (none, 1)
      | some df =>
        if df.isEmpty then (none, 1)
        else (some (monthNormalize country df), 1)

/-- `scrape_country`, source lines 221-262. -/
def scrape_country (att : Nat → AttemptOutcome) (country : String) (retry : Nat) :
    Option (List Obs) × Nat :=
  scrapeAttempts att country 0 (retry + 1)

/-! ## Merge/Upsert Engine (source lines 265-283) -/

/-- `pd.to_datetime` on the already-datetime `date` column. -/
def to_datetime (d : Int) : Int := d

/-- `merge_with_existing`, source lines 265-283.  `master = none` models the
master file being absent.  Concatenate master then new, stable-sort by
`(country, date)`, drop duplicate keys keeping the last (so the new panel's
row survives), and resort. -/
def merge_with_existing (master : Option (List Obs)) (new_panel : List Obs) : List Obs :=
  let np := new_panel.map (fun r => (r.1, to_datetime r.2.1, r.2.2))
  match master with
  | some old => stableSort obsLE (dropDupKeepLast obsKey (stableSort obsLE (old ++ np)))
  | none => stableSort obsLE np

/-! ## Run controller: `main` and `write_outputs` (source lines 309-367) -/

/-- The `for i, (country, url) in enumerate(items, 1)` loop, keeping the
frames appended to `all_rows` (a frame is appended iff it is not `None` and
not empty). -/
def runCountries (oracle : String → Nat → AttemptOutcome) (retry : Nat) :
    List String → List (List Obs)
  | [] => []
  | c :: cs =>
    match (scrape_country (oracle c) c retry).1 with
    | some df =>
      if df.isEmpty then runCountries oracle retry cs
      else df :: runCountries oracle retry cs
    | none => runCountries oracle retry cs

/-- What a successful run persists: master, the derived 10-year view, and
the manifest's descriptive counts. -/
structure RunOutputs where
  master : List Obs
  latest10y : List Obs
  manifestRowCountMaster : Nat
  manifestRowCountLatest10y : Nat
deriving DecidableEq

/-- `write_outputs` (with `write_manifest`), source lines 286-335: merge into
master, filter the 10-year view at the cutoff, record the manifest counts. -/
def write_outputs (masterStore : Option (List Obs)) (cutoff10y : Int)
    (new_panel : List Obs) : RunOutputs :=
  let master := merge_with_existing masterStore new_panel
  let latest10y := master.filter (fun r => decide (cutoff10y ≤ r.2.1))
  ⟨master, latest10y, master.length, latest10y.length⟩

/-- `main`, source lines 338-370: run all countries; if `all_rows` is empty
raise `RuntimeError` (the `.error` case — nothing is written), else
concatenate, sort, and write. -/
def mainRun (oracle : String → Nat → AttemptOutcome) (retry : Nat)
    (countries : List String) (masterStore : Option (List Obs))
    (cutoff10y : Int) : Except String RunOutputs :=
  let all_rows := runCountries oracle retry countries
  if all_rows.isEmpty then .error "No data extracted for any target country."
  else .ok (write_outputs masterStore cutoff10y (stableSort obsLE all_rows.flatten))

/-! ## Frame heap, for the aliasing behaviour of `merge_with_existing`

`merge_with_existing(master_csv_gz, new_panel)` receives a reference to the
caller's DataFrame; it rebinds the local name to `new_panel.copy()` before
the in-place `new_panel["date"] = pd.to_datetime(...)` column assignment.
The heap makes that object identity explicit: frames live at indices,
`copyFrame` allocates, `setDateColumn` writes in place. -/

/-- A heap of live DataFrames. -/
structure FrameHeap where
  frames : List (List Obs)

/-- Dereference a frame. -/
def readFrame (h : FrameHeap) (p : Nat) : List Obs := h.frames.getD p []

/-- `new_panel.copy()`: allocate a fresh frame with the same rows. -/
def copyFrame (h : FrameHeap) (p : Nat) : FrameHeap × Nat :=
  (⟨h.frames ++ [readFrame h p]⟩, h.frames.length)

/-- `frame["date"] = pd.to_datetime(frame["date"])`: in-place column write. -/
def setDateColumn (h : FrameHeap) (p : Nat) : FrameHeap :=
  ⟨h.frames.set p ((readFrame h p).map (fun r => (r.1, to_datetime r.2.1, r.2.2)))⟩

/-- `merge_with_existing` as it executes against the heap: copy the argument
frame, normalize the date column of the copy in place, then the pure
concat/sort/dedup tail (source lines 270-283). -/
def mergeWithExistingProc (h : FrameHeap) (masterStore : Option (List Obs))
    (p : Nat) : FrameHeap × List Obs :=
  let hq := copyFrame h p
  let h2 := setDateColumn hq.1 hq.2
  let np := readFrame h2 hq.2
  (h2,
    match masterStore with
    | some old => stableSort obsLE (dropDupKeepLast obsKey (stableSort obsLE (old ++ np)))
    | none => stableSort obsLE np)

/-! ## Concrete fixtures

The raw Chile input of the spec's end-to-end scenario (§8): two raw points in
January 2020 (values 10.5 and 11.0, in chronological order) and one in
February 2020 (value 12.0).  `1578614400000` is 2020-01-10, `1579478400000`
is 2020-01-20, `1581724800000` is 2020-02-15; `mkRat 21 2` is 10.5. -/

/-- The Chile raw extraction of the end-to-end scenario. -/
def chileRawPoints : List RawPair :=
  [(some 1578614400000, some (mkRat 21 2)), (some 1579478400000, some 11),
   (some 1581724800000, some 12)]

/-- A qualifying series with eleven numeric points `(0, 1) … (10, 1)`. -/
def capSeriesBig : JSSeries :=
  ⟨(List.range 11).map (fun i => some ⟨.num (i : Int), .num 1⟩), false, false⟩

/-- A second qualifying series with the single numeric point `(999, 1)`. -/
def capSeriesSmall : JSSeries :=
  ⟨[some ⟨.num 999, .num 1⟩], false, false⟩

/-- One chart holding both series, the dense one first. -/
def capCharts : ChartsState := [some [some capSeriesBig, some capSeriesSmall]]

/-! ## Order lemmas for the `(country, date)` sort key -/

theorem strLE_total (a : List Char) : ∀ b, strLE a b = true ∨ strLE b a = true := by
  induction a with
  | nil => intro b; left; rfl
  | cons x xs ih =>
    intro b
    cases b with
    | nil => right; rfl
    | cons y ys =>
      simp only [strLE]
      rcases Nat.lt_trichotomy x.toNat y.toNat with h | h | h
      · left; simp [h]
      · have h2 : ¬ x.toNat < y.toNat := by omega
        have h3 : ¬ y.toNat < x.toNat := by omega
        simp only [if_neg h2, if_neg h3]
        exact ih ys
      · right; simp [h]

theorem strLE_trans : ∀ (a b c : List Char),
    strLE a b = true → strLE b c = true → strLE a c = true
  | [], _, _, _, _ => rfl
  | _ :: _, [], _, h1, _ => by simp [strLE] at h1
  | _ :: _, _ :: _, [], _, h2 => by simp [strLE] at h2
  | x :: xs, y :: ys, z :: zs, h1, h2 => by
    simp only [strLE] at h1 h2 ⊢
    by_cases c2 : y.toNat < x.toNat
    · rw [if_neg (by omega), if_pos c2] at h1
      exact absurd h1 (by decide)
    · by_cases c4 : z.toNat < y.toNat
      · rw [if_neg (by omega), if_pos c4] at h2
        exact absurd h2 (by decide)
      · by_cases c1 : x.toNat < y.toNat
        · rw [if_pos (by omega)]
        · by_cases c3 : y.toNat < z.toNat
          · rw [if_pos (by omega)]
          · rw [if_neg c1, if_neg c2] at h1
            rw [if_neg c3, if_neg c4] at h2
            rw [if_neg (by omega), if_neg (by omega)]
            exact strLE_trans xs ys zs h1 h2

theorem strLE_antisymm : ∀ (a b : List Char),
    strLE a b = true → strLE b a = true → a = b
  | [], [], _, _ => rfl
  | [], _ :: _, _, h2 => by simp [strLE] at h2
  | _ :: _, [], h1, _ => by simp [strLE] at h1
  | x :: xs, y :: ys, h1, h2 => by
    simp only [strLE] at h1 h2
    by_cases c1 : x.toNat < y.toNat
    · by_cases c2 : y.toNat < x.toNat
      · exfalso
        omega
      · rw [if_neg c2, if_pos c1] at h2
        exact absurd h2 (by decide)
    · by_cases c2 : y.toNat < x.toNat
      · rw [if_neg c1, if_pos c2] at h1
        exact absurd h1 (by decide)
      · rw [if_neg c1, if_neg c2] at h1
        rw [if_neg c2, if_neg c1] at h2
        have hn : x.toNat = y.toNat := by omega
        have hx : x = y := Char.eq_of_val_eq (UInt32.ext hn)
        have ht : xs = ys := strLE_antisymm xs ys h1 h2
        rw [hx, ht]

theorem string_data_eq {s t : String} (h : s.data = t.data) : s = t := by
  cases s
  cases t
  exact congrArg String.mk (by simpa using h)

theorem keyLE_refl (a : String × Int) : keyLE a a = true := by
  simp [keyLE]

theorem keyLE_total (a b : String × Int) (h : keyLE a b = false) : keyLE b a = true := by
  unfold keyLE at h ⊢
  by_cases hs : a.1 = b.1
  · rw [if_pos hs] at h
    rw [if_pos hs.symm]
    simp only [decide_eq_false_iff_not] at h
    simp only [decide_eq_true_eq]
    omega
  · rw [if_neg hs] at h
    rw [if_neg (fun hh => hs hh.symm)]
    rcases strLE_total a.1.data b.1.data with h1 | h1
    · exact absurd h1 (by simp [h])
    · exact h1

theorem keyLE_trans (a b c : String × Int)
    (h1 : keyLE a b = true) (h2 : keyLE b c = true) : keyLE a c = true := by
  unfold keyLE at h1 h2 ⊢
  by_cases hab : a.1 = b.1 <;> by_cases hbc : b.1 = c.1
  · rw [if_pos hab] at h1
    rw [if_pos hbc] at h2
    rw [if_pos (hab.trans hbc)]
    simp only [decide_eq_true_eq] at h1 h2 ⊢
    omega
  · rw [if_neg hbc] at h2
    have hac : ¬ a.1 = c.1 := fun h => hbc (hab ▸ h)
    rw [if_neg hac]
    rw [hab]
    exact h2
  · rw [if_neg hab] at h1
    have hac : ¬ a.1 = c.1 := fun h => hab (h.trans hbc.symm)
    rw [if_neg hac]
    rw [← hbc]
    exact h1
  · rw [if_neg hab] at h1
    rw [if_neg hbc] at h2
    by_cases hac : a.1 = c.1
    · exfalso
      apply hab
      apply string_data_eq
      exact strLE_antisymm a.1.data b.1.data h1 (hac ▸ h2)
    · rw [if_neg hac]
      exact strLE_trans a.1.data b.1.data c.1.data h1 h2

theorem keyLE_antisymm (a b : String × Int)
    (h1 : keyLE a b = true) (h2 : keyLE b a = true) : a = b := by
  unfold keyLE at h1 h2
  by_cases hs : a.1 = b.1
  · rw [if_pos hs] at h1
    rw [if_pos hs.symm] at h2
    simp only [decide_eq_true_eq] at h1 h2
    have : a.2 = b.2 := by omega
    exact Prod.ext hs this
  · rw [if_neg hs] at h1
    rw [if_neg (fun hh => hs hh.symm)] at h2
    exact absurd (string_data_eq (strLE_antisymm a.1.data b.1.data h1 h2)) hs

theorem obsLE_total (a b : Obs) (h : obsLE a b = false) : obsLE b a = true :=
  keyLE_total _ _ h

theorem obsLE_trans (a b c : Obs) (h1 : obsLE a b = true) (h2 : obsLE b c = true) :
    obsLE a c = true :=
  keyLE_trans _ _ _ h1 h2

theorem obsKey_eq_of_le_le (a b : Obs) (h1 : obsLE a b = true) (h2 : obsLE b a = true) :
    obsKey a = obsKey b :=
  keyLE_antisymm _ _ h1 h2

theorem obsLE_of_key_eq (a b : Obs) (h : obsKey a = obsKey b) : obsLE a b = true := by
  unfold obsLE
  rw [h]
  exact keyLE_refl _

/-! ## Stable sort lemmas -/

theorem insertSorted_perm (le : α → α → Bool) (r : α) (l : List α) :
    (insertSorted le r l).Perm (r :: l) := by
  induction l with
  | nil => exact List.Perm.refl _
  | cons s t ih =>
    simp only [insertSorted]
    split
    · exact List.Perm.refl _
    · exact (ih.cons s).trans (List.Perm.swap r s t)

theorem stableSort_perm (le : α → α → Bool) (l : List α) : (stableSort le l).Perm l := by
  induction l with
  | nil => exact List.Perm.refl _
  | cons r t ih =>
    simp only [stableSort]
    exact (insertSorted_perm le r _).trans (ih.cons r)

theorem filter_insertSorted (le : α → α → Bool) (p : α → Bool)
    (hp : ∀ a b, p a = true → p b = true → le a b = true) (r : α) (l : List α) :
    (insertSorted le r l).filter p = if p r then r :: l.filter p else l.filter p := by
  induction l with
  | nil =>
    by_cases hq : p r = true
    · simp [insertSorted, hq]
    · simp [insertSorted, hq]
  | cons s t ih =>
    simp only [insertSorted]
    by_cases hrs : le r s = true
    · rw [if_pos hrs, List.filter_cons]
    · rw [if_neg hrs, List.filter_cons, ih, List.filter_cons]
      by_cases hpr : p r = true
      · have hps : p s = false := by
          rcases hq : p s with _ | _
          · rfl
          · exact absurd (hp r s hpr hq) hrs
        simp [hpr, hps]
      · have hpr2 : p r = false := by
          rcases hq : p r with _ | _
          · rfl
          · exact absurd hq hpr
        simp [hpr2]

theorem filter_stableSort (le : α → α → Bool) (p : α → Bool)
    (hp : ∀ a b, p a = true → p b = true → le a b = true) (l : List α) :
    (stableSort le l).filter p = l.filter p := by
  induction l with
  | nil => rfl
  | cons r t ih =>
    simp only [stableSort]
    rw [filter_insertSorted le p hp, ih, List.filter_cons]

theorem pairwise_insertSorted (le : α → α → Bool)
    (htot : ∀ a b, le a b = false → le b a = true)
    (htrans : ∀ a b c, le a b = true → le b c = true → le a c = true)
    (r : α) (l : List α) (h : l.Pairwise (fun a b => le a b = true)) :
    (insertSorted le r l).Pairwise (fun a b => le a b = true) := by
  induction l with
  | nil => simp [insertSorted]
  | cons s t ih =>
    simp only [insertSorted]
    rcases List.pairwise_cons.mp h with ⟨hs, ht⟩
    by_cases hrs : le r s = true
    · rw [if_pos hrs]
      refine List.pairwise_cons.mpr ⟨?_, h⟩
      intro x hx
      rcases List.mem_cons.mp hx with rfl | hx2
      · exact hrs
      · exact htrans r s x hrs (hs x hx2)
    · have hf : le r s = false := by
        rcases hq : le r s with _ | _
        · rfl
        · exact absurd hq hrs
      rw [if_neg hrs]
      refine List.pairwise_cons.mpr ⟨?_, ih ht⟩
      intro x hx
      have hx2 : x ∈ r :: t := (insertSorted_perm le r t).mem_iff.mp hx
      rcases List.mem_cons.mp hx2 with h4 | hx3
      · rw [h4]
        exact htot r s hf
      · exact hs x hx3

theorem pairwise_stableSort (le : α → α → Bool)
    (htot : ∀ a b, le a b = false → le b a = true)
    (htrans : ∀ a b c, le a b = true → le b c = true → le a c = true)
    (l : List α) : (stableSort le l).Pairwise (fun a b => le a b = true) := by
  induction l with
  | nil => exact List.Pairwise.nil
  | cons r t ih =>
    simp only [stableSort]
    exact pairwise_insertSorted le htot htrans r _ ih

/-! ## Deduplication lemmas -/

theorem mem_of_mem_dropDupKeepLast [DecidableEq κ] (key : α → κ) :
    ∀ (l : List α) (x : α), x ∈ dropDupKeepLast key l → x ∈ l := by
  intro l
  induction l with
  | nil => intro x hx; exact absurd hx (by simp [dropDupKeepLast])
  | cons r t ih =>
    intro x hx
    simp only [dropDupKeepLast] at hx
    split at hx
    · exact List.mem_cons_of_mem r (ih x hx)
    · rcases List.mem_cons.mp hx with rfl | hx2
      · exact List.mem_cons_self x t
      · exact List.mem_cons_of_mem r (ih x hx2)

theorem keys_nodup_dropDupKeepLast [DecidableEq κ] (key : α → κ) :
    ∀ l : List α, ((dropDupKeepLast key l).map key).Nodup := by
  intro l
  induction l with
  | nil => simp [dropDupKeepLast]
  | cons r t ih =>
    simp only [dropDupKeepLast]
    split
    · exact ih
    · rename_i hany
      simp only [List.map_cons]
      refine List.nodup_cons.mpr ⟨?_, ih⟩
      intro hmem
      rcases List.mem_map.mp hmem with ⟨x, hx, hkx⟩
      have hxt : x ∈ t := mem_of_mem_dropDupKeepLast key t x hx
      exact hany (List.any_eq_true.mpr ⟨x, hxt, by simp [hkx]⟩)

theorem filter_dropDupKeepLast [DecidableEq κ] (key : α → κ) (k : κ) :
    ∀ l : List α,
      (dropDupKeepLast key l).filter (fun r => decide (key r = k)) =
        ((l.filter (fun r => decide (key r = k))).getLast?).toList := by
  intro l
  induction l with
  | nil => rfl
  | cons r t ih =>
    simp only [dropDupKeepLast]
    by_cases hk : key r = k
    · by_cases hany : t.any (fun s => decide (key s = key r)) = true
      · rw [if_pos hany, ih, List.filter_cons, if_pos (by simp [hk])]
        rcases List.any_eq_true.mp hany with ⟨x, hx, hkx⟩
        have hxf : x ∈ t.filter (fun s => decide (key s = k)) :=
          List.mem_filter.mpr ⟨hx, by simp at hkx; simp [hkx, hk]⟩
        rcases List.exists_cons_of_ne_nil (List.ne_nil_of_mem hxf) with ⟨b, bs, hbs⟩
        rw [hbs, List.getLast?_cons_cons]
      · rw [if_neg hany]
        have hfe : t.filter (fun s => decide (key s = k)) = [] := by
          rw [List.filter_eq_nil_iff]
          intro a ha
          simp only [decide_eq_true_eq]
          intro hak
          exact hany (List.any_eq_true.mpr ⟨a, ha, by simp [hak, hk]⟩)
        rw [List.filter_cons, if_pos (by simp [hk]), ih, hfe]
        rw [List.filter_cons, if_pos (by simp [hk]), hfe]
        rfl
    · have hfc : (r :: t).filter (fun s => decide (key s = k)) =
          t.filter (fun s => decide (key s = k)) := by
        rw [List.filter_cons, if_neg (by simp [hk])]
      by_cases hany : t.any (fun s => decide (key s = key r)) = true
      · rw [if_pos hany, ih, hfc]
      · rw [if_neg hany, List.filter_cons, if_neg (by simp [hk]), ih, hfc]

theorem filter_dropDupSeen [DecidableEq κ] (key : α → κ) (k : κ) :
    ∀ (l : List α) (seen : List κ),
      (dropDupSeen key seen l).filter (fun r => decide (key r = k)) =
        if k ∈ seen then [] else (l.filter (fun r => decide (key r = k))).take 1 := by
  intro l
  induction l with
  | nil =>
    intro seen
    by_cases hks : k ∈ seen <;> simp [dropDupSeen, hks]
  | cons r t ih =>
    intro seen
    simp only [dropDupSeen]
    by_cases hseen : key r ∈ seen
    · rw [if_pos hseen, ih]
      by_cases hks : k ∈ seen
      · rw [if_pos hks, if_pos hks]
      · have hrk : ¬ key r = k := fun h => hks (h ▸ hseen)
        rw [if_neg hks, if_neg hks, List.filter_cons, if_neg (by simp [hrk])]
    · rw [if_neg hseen]
      rw [List.filter_cons]
      by_cases hrk : key r = k
      · have h1 : ¬ k ∈ seen := fun h => hseen (hrk ▸ h)
        rw [if_pos (by simp [hrk]), ih]
        rw [if_pos (by rw [hrk]; exact List.mem_cons_self k seen)]
        rw [if_neg h1, List.filter_cons, if_pos (by simp [hrk])]
        rfl
      · rw [if_neg (by simp [hrk]), ih]
        have h2 : (k ∈ key r :: seen) ↔ (k ∈ seen) := by
          constructor
          · intro h
            rcases List.mem_cons.mp h with h3 | h3
            · exact absurd h3.symm hrk
            · exact h3
          · exact List.mem_cons_of_mem _
        by_cases hks : k ∈ seen
        · rw [if_pos (h2.mpr hks), if_pos hks]
        · rw [if_neg (fun h => hks (h2.mp h)), if_neg hks,
            List.filter_cons, if_neg (by simp [hrk])]

theorem dropDupSeen_keys [DecidableEq κ] (key : α → κ) :
    ∀ (l : List α) (seen : List κ),
      ((dropDupSeen key seen l).map key).Nodup ∧
        ∀ k ∈ seen, k ∉ (dropDupSeen key seen l).map key := by
  intro l
  induction l with
  | nil => intro seen; simp [dropDupSeen]
  | cons r t ih =>
    intro seen
    simp only [dropDupSeen]
    by_cases hseen : key r ∈ seen
    · rw [if_pos hseen]
      exact ih seen
    · rw [if_neg hseen]
      simp only [List.map_cons]
      refine ⟨List.nodup_cons.mpr ⟨?_, (ih (key r :: seen)).1⟩, ?_⟩
      · exact (ih (key r :: seen)).2 (key r) (List.mem_cons_self _ _)
      · intro k hk
        intro hmem
        rcases List.mem_cons.mp hmem with h3 | h3
        · exact hseen (h3 ▸ hk)
        · exact (ih (key r :: seen)).2 k (List.mem_cons_of_mem _ hk) h3

/-! ## Characterizing the merge by key lookups -/

theorem getLast?_toList (o : Option α) : o.toList.getLast? = o := by
  cases o <;> rfl

theorem length_toList_getLast? (l : List α) (h : l ≠ []) :
    ((l.getLast?).toList).length = 1 := by
  induction l with
  | nil => exact absurd rfl h
  | cons a t ih =>
    cases t with
    | nil => rfl
    | cons b bs =>
      rw [List.getLast?_cons_cons]
      exact ih (List.cons_ne_nil b bs)

theorem dateMap_id (l : List Obs) : l.map (fun r => (r.1, to_datetime r.2.1, r.2.2)) = l := by
  induction l with
  | nil => rfl
  | cons r t ih => simp [to_datetime, ih]

theorem obs_filter_hp (k : String × Int) :
    ∀ a b : Obs, decide (obsKey a = k) = true → decide (obsKey b = k) = true →
      obsLE a b = true := by
  intro a b ha hb
  simp only [decide_eq_true_eq] at ha hb
  exact obsLE_of_key_eq a b (ha.trans hb.symm)

theorem merge_some_eq (old np : List Obs) :
    merge_with_existing (some old) np =
      stableSort obsLE (dropDupKeepLast obsKey (stableSort obsLE (old ++ np))) := by
  simp only [merge_with_existing, dateMap_id]

theorem merge_none_eq (np : List Obs) :
    merge_with_existing none np = stableSort obsLE np := by
  simp only [merge_with_existing, dateMap_id]

theorem merge_filter (old np : List Obs) (k : String × Int) :
    (merge_with_existing (some old) np).filter (fun r => decide (obsKey r = k)) =
      (((old ++ np).filter (fun r => decide (obsKey r = k))).getLast?).toList := by
  rw [merge_some_eq]
  rw [filter_stableSort obsLE _ (obs_filter_hp k)]
  rw [filter_dropDupKeepLast obsKey k]
  rw [filter_stableSort obsLE _ (obs_filter_hp k)]

theorem filter_key_of_nodup (np : List Obs) (rn : Obs) (k : String × Int)
    (hmem : rn ∈ np) (hk : obsKey rn = k) (hnd : (np.map obsKey).Nodup) :
    np.filter (fun r => decide (obsKey r = k)) = [rn] := by
  induction np with
  | nil => exact absurd hmem (List.not_mem_nil rn)
  | cons s t ih =>
    have hnd2 := hnd
    simp only [List.map_cons] at hnd2
    have hpair := List.nodup_cons.mp hnd2
    rcases List.mem_cons.mp hmem with h4 | h4
    · have hsk : obsKey s = k := by
        rw [← h4]
        exact hk
      rw [List.filter_cons, if_pos (by simp [hsk])]
      have hfe : t.filter (fun r => decide (obsKey r = k)) = [] := by
        rw [List.filter_eq_nil_iff]
        intro a ha
        simp only [decide_eq_true_eq]
        intro hak
        have hmm : obsKey a ∈ t.map obsKey := List.mem_map_of_mem obsKey ha
        rw [hak] at hmm
        apply hpair.1
        rw [hsk]
        exact hmm
      rw [hfe, ← h4]
    · have hsk : ¬ (obsKey s = k) := by
        intro h
        apply hpair.1
        rw [h, ← hk]
        exact List.mem_map_of_mem obsKey h4
      rw [List.filter_cons, if_neg (by simp [hsk])]
      exact ih h4 hpair.2

theorem merge_some_pairwise (old np : List Obs) :
    (merge_with_existing (some old) np).Pairwise (fun a b => obsLE a b = true) := by
  rw [merge_some_eq]
  exact pairwise_stableSort obsLE obsLE_total obsLE_trans _

theorem merge_some_keys_nodup (old np : List Obs) :
    ((merge_with_existing (some old) np).map obsKey).Nodup := by
  rw [merge_some_eq]
  have hperm :=
    ((stableSort_perm obsLE (dropDupKeepLast obsKey (stableSort obsLE (old ++ np)))).map obsKey)
  exact hperm.nodup_iff.mpr (keys_nodup_dropDupKeepLast obsKey _)

theorem sorted_nodup_keys_ext :
    ∀ l1 l2 : List Obs,
      l1.Pairwise (fun a b => obsLE a b = true) →
      l2.Pairwise (fun a b => obsLE a b = true) →
      (l1.map obsKey).Nodup → (l2.map obsKey).Nodup →
      (∀ k, l1.filter (fun r => decide (obsKey r = k)) =
        l2.filter (fun r => decide (obsKey r = k))) →
      l1 = l2 := by
  intro l1
  induction l1 with
  | nil =>
    intro l2 _ _ _ _ h
    cases l2 with
    | nil => rfl
    | cons r2 t2 =>
      exfalso
      have h5 := h (obsKey r2)
      rw [List.filter_nil, List.filter_cons, if_pos (by simp)] at h5
      simp at h5
  | cons r1 t1 ih =>
    intro l2 s1 s2 n1 n2 h
    cases l2 with
    | nil =>
      exfalso
      have h5 := h (obsKey r1)
      rw [List.filter_nil, List.filter_cons, if_pos (by simp)] at h5
      simp at h5
    | cons r2 t2 =>
      have hf1 : (r1 :: t1).filter (fun r => decide (obsKey r = obsKey r1)) = [r1] :=
        filter_key_of_nodup _ r1 _ (List.mem_cons_self _ _) rfl n1
      have hf2 : (r2 :: t2).filter (fun r => decide (obsKey r = obsKey r2)) = [r2] :=
        filter_key_of_nodup _ r2 _ (List.mem_cons_self _ _) rfl n2
      have hr1mem : r1 ∈ r2 :: t2 := by
        have h1 := h (obsKey r1)
        rw [hf1] at h1
        have h6 : r1 ∈ (r2 :: t2).filter (fun r => decide (obsKey r = obsKey r1)) := by
          rw [← h1]
          exact List.mem_cons_self _ _
        exact (List.mem_filter.mp h6).1
      have hr2mem : r2 ∈ r1 :: t1 := by
        have h2 := h (obsKey r2)
        rw [hf2] at h2
        have h6 : r2 ∈ (r1 :: t1).filter (fun r => decide (obsKey r = obsKey r2)) := by
          rw [h2]
          exact List.mem_cons_self _ _
        exact (List.mem_filter.mp h6).1
      have heq : r1 = r2 := by
        rcases List.mem_cons.mp hr1mem with h3 | h3
        · exact h3
        · rcases List.mem_cons.mp hr2mem with h4 | h4
          · exact h4.symm
          · have hle21 : obsLE r2 r1 = true := (List.pairwise_cons.mp s2).1 r1 h3
            have hle12 : obsLE r1 r2 = true := (List.pairwise_cons.mp s1).1 r2 h4
            have hkeq : obsKey r2 = obsKey r1 :=
              obsKey_eq_of_le_le r2 r1 hle21 hle12
            have h1 := h (obsKey r1)
            rw [hf1, List.filter_cons, if_pos (by simp [hkeq])] at h1
            injection h1
      rw [← heq] at s2 n2 h ⊢
      simp only [List.map_cons] at n1 n2
      refine congrArg (List.cons r1) (ih t2 (List.pairwise_cons.mp s1).2
        (List.pairwise_cons.mp s2).2 (List.nodup_cons.mp n1).2 (List.nodup_cons.mp n2).2 ?_)
      intro k
      have hk := h k
      rw [List.filter_cons, List.filter_cons] at hk
      by_cases hkr : decide (obsKey r1 = k) = true
      · rw [if_pos hkr, if_pos hkr] at hk
        injection hk
      · rw [if_neg hkr, if_neg hkr] at hk
        exact hk

/-! ## Controller helpers -/

theorem scrapeAttempts_all_raised (att : Nat → AttemptOutcome) (country : String)
    (h : ∀ i, ∃ e, att i = .raised e) :
    ∀ n a, scrapeAttempts att country a n = (none, n) := by
  intro n
  induction n with
  | zero => intro a; rfl
  | succ m ih =>
    intro a
    rcases h a with ⟨e, he⟩
    simp [scrapeAttempts, he, ih (a + 1)]

theorem runCountries_nil_of_all_none (oracle : String → Nat → AttemptOutcome) (retry : Nat) :
    ∀ countries, (∀ c ∈ countries, (scrape_country (oracle c) c retry).1 = none) →
      runCountries oracle retry countries = [] := by
  intro countries
  induction countries with
  | nil => intro _; rfl
  | cons c cs ih =>
    intro h
    have hc := h c (List.mem_cons_self c cs)
    simp only [runCountries, hc]
    exact ih (fun x hx => h x (List.mem_cons_of_mem c hx))

/-! ## The claims -/

/-- C1 (counterexample): the claim's asserted output is wrong on the code.
For the raw Chile input `[(2020-01-10, 10.5), (2020-01-20, 11.0),
(2020-02-15, 12.0)]` the normalizer does NOT produce
`[("Chile", 2020-01, 11.0), ("Chile", 2020-02, 12.0)]`: the month
deduplication is `drop_duplicates(subset=["country", "date"])` with the
pandas default `keep="first"`, so January keeps 10.5, not 11.0. -/
theorem C1_counterexample :
    normalize_points "Chile" chileRawPoints ≠
      [("Chile", 24240, 11), ("Chile", 24241, 12)] := by
  decide

/-- C1 (amended): the normalizer keeps exactly one row per `(entity, month)`
(unique keys), and the row kept for a month is the chronologically FIRST raw
point surviving the null-drop, exact-duplicate-drop and ascending-date sort
(`take 1` of the sorted month slice); in particular the Chile input yields
`[("Chile", 2020-01, 10.5), ("Chile", 2020-02, 12.0)]`
(`24240` is the month index of 2020-01 and `mkRat 21 2` is 10.5). -/
theorem C1_normalizer_first_per_month :
    (∀ (country : String) (pts : List RawPair),
        ((normalize_points country pts).map obsKey).Nodup ∧
          ∀ k : String × Int,
            (normalize_points country pts).filter (fun r => decide (obsKey r = k)) =
              (((cleanSeries pts).map (fun p => (country, msToMonthIdx p.1, p.2))).filter
                (fun r => decide (obsKey r = k))).take 1) ∧
      normalize_points "Chile" chileRawPoints =
        [("Chile", 24240, mkRat 21 2), ("Chile", 24241, 12)] := by
  constructor
  · intro country pts
    constructor
    · simp only [normalize_points, monthNormalize, dropDupKeepFirst]
      exact (dropDupSeen_keys obsKey _ []).1
    · intro k
      simp only [normalize_points, monthNormalize, dropDupKeepFirst]
      rw [filter_dropDupSeen obsKey k _ []]
      rw [if_neg (List.not_mem_nil k)]
  · decide

/-- C2: merge precedence.  For any master and new panel and any key `k`
present in both (with the new panel's keys unique, and the two values
differing), the merged panel's unique row at `k` is exactly the new panel's
row — never the master's. -/
theorem C2_merge_precedence (old np : List Obs) (ro rn : Obs) (k : String × Int)
    (hro : ro ∈ old) (hkro : obsKey ro = k) (hrn : rn ∈ np) (hkrn : obsKey rn = k)
    (hnd : (np.map obsKey).Nodup) (hval : obsVal ro ≠ obsVal rn) :
    (merge_with_existing (some old) np).filter (fun r => decide (obsKey r = k)) = [rn] := by
  rw [merge_filter, List.filter_append, filter_key_of_nodup np rn k hrn hkrn hnd]
  rw [List.getLast?_append_of_ne_nil _ (List.cons_ne_nil rn [])]
  rfl

/-- C2 witness: master row `("Chile", 2020-01, 1)` and new row
`("Chile", 2020-01, 2)` merge to the new row. -/
theorem C2_merge_precedence_witness :
    (("Chile", 24240, (1 : ℚ)) ∈ ([("Chile", 24240, (1 : ℚ))] : List Obs)) ∧
      (("Chile", 24240, (2 : ℚ)) ∈ ([("Chile", 24240, (2 : ℚ))] : List Obs)) ∧
      obsVal ("Chile", 24240, (1 : ℚ)) ≠ obsVal ("Chile", 24240, (2 : ℚ)) ∧
      (merge_with_existing (some [("Chile", 24240, (1 : ℚ))])
            [("Chile", 24240, (2 : ℚ))]).filter
          (fun r => decide (obsKey r = ("Chile", 24240))) =
        [("Chile", 24240, (2 : ℚ))] :=
  ⟨by decide, by decide, by decide,
    C2_merge_precedence [("Chile", 24240, (1 : ℚ))] [("Chile", 24240, (2 : ℚ))]
      ("Chile", 24240, (1 : ℚ)) ("Chile", 24240, (2 : ℚ)) ("Chile", 24240)
      (by decide) (by decide) (by decide) (by decide) (by decide) (by decide)⟩

/-- C3: merge completeness.  When both inputs have unique `(entity, period)`
keys, every key present in either input appears exactly once in the merged
output (and absent keys appear zero times). -/
theorem C3_merge_completeness (old np : List Obs)
    (h1 : (old.map obsKey).Nodup) (h2 : (np.map obsKey).Nodup) (k : String × Int) :
    ((merge_with_existing (some old) np).filter (fun r => decide (obsKey r = k))).length =
      if k ∈ old.map obsKey ∨ k ∈ np.map obsKey then 1 else 0 := by
  rw [merge_filter, List.filter_append]
  by_cases hk : k ∈ old.map obsKey ∨ k ∈ np.map obsKey
  · rw [if_pos hk]
    apply length_toList_getLast?
    rcases hk with hk | hk
    · rcases List.mem_map.mp hk with ⟨r, hr, hkr⟩
      have hf : r ∈ old.filter (fun r => decide (obsKey r = k)) :=
        List.mem_filter.mpr ⟨hr, by simp [hkr]⟩
      exact List.ne_nil_of_mem (List.mem_append_left _ hf)
    · rcases List.mem_map.mp hk with ⟨r, hr, hkr⟩
      have hf : r ∈ np.filter (fun r => decide (obsKey r = k)) :=
        List.mem_filter.mpr ⟨hr, by simp [hkr]⟩
      exact List.ne_nil_of_mem (List.mem_append_right _ hf)
  · rw [if_neg hk]
    rw [not_or] at hk
    have hA : old.filter (fun r => decide (obsKey r = k)) = [] := by
      rw [List.filter_eq_nil_iff]
      intro a ha
      simp only [decide_eq_true_eq]
      intro hak
      exact hk.1 (hak ▸ List.mem_map_of_mem obsKey ha)
    have hB : np.filter (fun r => decide (obsKey r = k)) = [] := by
      rw [List.filter_eq_nil_iff]
      intro a ha
      simp only [decide_eq_true_eq]
      intro hak
      exact hk.2 (hak ▸ List.mem_map_of_mem obsKey ha)
    rw [hA, hB]
    rfl

/-- C3 witness: one master key and one distinct new key; the master key
appears exactly once in the merged output. -/
theorem C3_merge_completeness_witness :
    (([("Chile", 24240, (1 : ℚ))].map obsKey).Nodup) ∧
      (([("Chile", 24241, (2 : ℚ))].map obsKey).Nodup) ∧
      ((merge_with_existing (some [("Chile", 24240, (1 : ℚ))])
            [("Chile", 24241, (2 : ℚ))]).filter
          (fun r => decide (obsKey r = ("Chile", 24240)))).length =
        if ("Chile", 24240) ∈ [("Chile", 24240, (1 : ℚ))].map obsKey ∨
            ("Chile", 24240) ∈ [("Chile", 24241, (2 : ℚ))].map obsKey then 1 else 0 :=
  ⟨by decide, by decide, C3_merge_completeness _ _ (by decide) (by decide) _⟩

/-- C4: merge idempotence.  `merge(merge(master, new), new) =
merge(master, new)` for every master and new panel, as full frame equality
(same rows in the same order). -/
theorem C4_merge_idempotent (old np : List Obs) :
    merge_with_existing (some (merge_with_existing (some old) np)) np =
      merge_with_existing (some old) np := by
  apply sorted_nodup_keys_ext _ _ (merge_some_pairwise _ _) (merge_some_pairwise _ _)
    (merge_some_keys_nodup _ _) (merge_some_keys_nodup _ _)
  intro k
  rw [merge_filter (merge_with_existing (some old) np) np k, List.filter_append,
    merge_filter old np k, List.filter_append]
  cases hB : np.filter (fun r => decide (obsKey r = k)) with
  | nil => simp [getLast?_toList]
  | cons b bs =>
    rw [List.getLast?_append_of_ne_nil _ (List.cons_ne_nil b bs),
      List.getLast?_append_of_ne_nil _ (List.cons_ne_nil b bs)]

/-- C5 (counterexample): the ten-point cap is NOT per-series.  With a first
qualifying series of eleven numeric points and a second qualifying series
holding the numeric point `(999, 1)`, the scan returns only the first
series' points: the cumulative `results.length > 10` check fires after the
first series and `return results` aborts the whole scan, so the second
series' point is absent — the other series IS truncated away. -/
theorem C5_counterexample :
    extractRawPoints capCharts =
        (List.range 11).map (fun i => (some (i : Int), some (1 : ℚ))) ∧
      (some (999 : Int), some (1 : ℚ)) ∉ extractRawPoints capCharts := by
  decide

/-- C5 (amended): the early exit is a cap on the points collected
cumulatively across all series of the scan, checked after each qualifying
series; once the total exceeds ten the whole extraction returns at once, so
every later series (and later chart) is omitted entirely, while the series
that tripped the cap is itself returned in full. -/
theorem C5_cap_is_cumulative (s : JSSeries) (rest : List (Option JSSeries))
    (moreCharts : ChartsState)
    (h1 : s.points.isEmpty = false) (h2 : s.isInternal = false)
    (h3 : s.idIsNavigator = false)
    (hlen : 10 < (collectSeriesPoints s.points).length) :
    extractRawPoints (some (some s :: rest) :: moreCharts) =
      collectSeriesPoints s.points := by
  unfold extractRawPoints
  simp [scanCharts, scanSeriesList, h1, h2, h3, hlen]

/-- C5 witness: the dense eleven-point series trips the cap and is returned
in full, with a further series and no further charts present. -/
theorem C5_cap_is_cumulative_witness :
    capSeriesBig.points.isEmpty = false ∧ capSeriesBig.isInternal = false ∧
      capSeriesBig.idIsNavigator = false ∧
      10 < (collectSeriesPoints capSeriesBig.points).length ∧
      extractRawPoints (some (some capSeriesBig :: [some capSeriesSmall]) :: []) =
        collectSeriesPoints capSeriesBig.points :=
  ⟨by decide, by decide, by decide, by decide,
    C5_cap_is_cumulative capSeriesBig [some capSeriesSmall] []
      (by decide) (by decide) (by decide) (by decide)⟩

/-- C6: retry exhaustion.  If every attempt raises, `scrape_country` with
parameter `retry` makes exactly `retry + 1` attempts and returns the failure
value `None`; the controller's return type is total — the broad
`except (TimeoutException, WebDriverException, Exception)` clause keeps any
raised error from escaping the loop. -/
theorem C6_retry_exhaustion (att : Nat → AttemptOutcome) (country : String) (retry : Nat)
    (h : ∀ i, ∃ e, att i = .raised e) :
    scrape_country att country retry = (none, retry + 1) :=
  scrapeAttempts_all_raised att country h (retry + 1) 0

/-- C6 witness: an always-raising stub with the observed default `retry = 2`
makes exactly three attempts and returns `None`. -/
theorem C6_retry_exhaustion_witness :
    scrape_country (fun _ => .raised "timeout") "China" 2 = (none, 3) :=
  C6_retry_exhaustion (fun _ => .raised "timeout") "China" 2 (fun _ => ⟨"timeout", rfl⟩)

/-- C7: empty extraction is non-fatal and not retried.  If the first
attempt's page renders but the extraction snippet returns no points, the
controller returns the no-data outcome after that single attempt (no retry
budget consumed), and the run goes on: the remaining entities produce
exactly what they would have produced without this entity. -/
theorem C7_empty_extraction_non_fatal (oracle : String → Nat → AttemptOutcome)
    (retry : Nat) (c : String) (cs : List String) (charts : ChartsState)
    (h0 : oracle c 0 = .rendered charts) (hempty : extractRawPoints charts = []) :
    scrape_country (oracle c) c retry = (none, 1) ∧
      runCountries oracle retry (c :: cs) = runCountries oracle retry cs := by
  have hext : extract_highcharts_series charts = none := by
    simp [extract_highcharts_series, hempty]
  have hs : scrape_country (oracle c) c retry = (none, 1) := by
    show scrapeAttempts (oracle c) c 0 (retry + 1) = (none, 1)
    simp [scrapeAttempts, h0, hext]
  exact ⟨hs, by simp [runCountries, hs]⟩

/-- C7 witness: China renders an empty charting state and is reported
no-data after one attempt; India is still processed. -/
theorem C7_empty_extraction_non_fatal_witness :
    scrape_country (fun _ => AttemptOutcome.rendered []) "China" 2 = (none, 1) ∧
      runCountries (fun _ _ => AttemptOutcome.rendered []) 2 ["China", "India"] =
        runCountries (fun _ _ => AttemptOutcome.rendered []) 2 ["India"] :=
  C7_empty_extraction_non_fatal (fun _ _ => .rendered []) 2 "China" ["India"] [] rfl rfl

/-- C8: total failure is fatal before any write.  If every target entity's
scrape returns no frame, the run evaluates to the `RuntimeError` — the
`.error` branch of `mainRun`, taken before `write_outputs` — so no master,
derived view, or manifest value is produced. -/
theorem C8_total_failure_fatal (oracle : String → Nat → AttemptOutcome) (retry : Nat)
    (countries : List String) (masterStore : Option (List Obs)) (cutoff10y : Int)
    (h : ∀ c ∈ countries, (scrape_country (oracle c) c retry).1 = none) :
    mainRun oracle retry countries masterStore cutoff10y =
      .error "No data extracted for any target country." := by
  unfold mainRun
  rw [runCountries_nil_of_all_none oracle retry countries h]
  rfl

/-- C8 witness: with every attempt of every target country raising, the run
is the fatal error. -/
theorem C8_total_failure_fatal_witness :
    mainRun (fun _ _ => .raised "blocked") 2 TARGET_COUNTRIES none 0 =
      .error "No data extracted for any target country." :=
  C8_total_failure_fatal _ 2 TARGET_COUNTRIES none 0 (fun c _ =>
    congrArg Prod.fst
      (scrapeAttempts_all_raised (fun _ => .raised "blocked") c
        (fun _ => ⟨"blocked", rfl⟩) 3 0))

/-- C9: slug resolution.  The two override names resolve verbatim from the
table; non-override names are trimmed, lowercased, and have each internal
space replaced by a hyphen: `resolve("United States") = "united-states"`,
`resolve("Brazil") = "brazil"`, `resolve("New Zealand") = "new-zealand"`,
and `resolve(" Chile ") = "chile"`. -/
theorem C9_slug_resolution :
    slugify_country "United States" = "united-states" ∧
      slugify_country "South Africa" = "south-africa" ∧
      slugify_country "Brazil" = "brazil" ∧
      slugify_country "New Zealand" = "new-zealand" ∧
      slugify_country " Chile " = "chile" := by
  decide

/-- C10: `merge_with_existing` never mutates its `new_panel` argument.  On
the frame heap, the caller's frame at `p` is unchanged after the call (the
body rebinds to `new_panel.copy()` before the in-place `date` assignment,
which writes only the fresh copy), and the returned frame equals the pure
merge of the heap value passed in. -/
theorem C10_merge_does_not_mutate_argument (h : FrameHeap)
    (masterStore : Option (List Obs)) (p : Nat) (hp : p < h.frames.length) :
    readFrame (mergeWithExistingProc h masterStore p).1 p = readFrame h p ∧
      (mergeWithExistingProc h masterStore p).2 =
        merge_with_existing masterStore (readFrame h p) := by
  have hnp : readFrame (setDateColumn (copyFrame h p).1 (copyFrame h p).2) (copyFrame h p).2 =
      (readFrame h p).map (fun r => (r.1, to_datetime r.2.1, r.2.2)) := by
    have hread : readFrame (copyFrame h p).1 (copyFrame h p).2 = readFrame h p := by
      simp [copyFrame, readFrame, List.getD]
    have hlen : h.frames.length < ((h.frames ++ [readFrame h p]).length) := by
      simp
    simp [setDateColumn, copyFrame, readFrame, List.getD, List.getElem?_set_self, hlen] at hread ⊢
  constructor
  · show readFrame (setDateColumn (copyFrame h p).1 (copyFrame h p).2) p = readFrame h p
    simp [setDateColumn, copyFrame, readFrame, List.getD,
      List.getElem?_set_ne hp.ne', List.getElem?_append_left hp]
  · show (match masterStore with
      | some old =>
        stableSort obsLE (dropDupKeepLast obsKey (stableSort obsLE
          (old ++ readFrame (setDateColumn (copyFrame h p).1 (copyFrame h p).2) (copyFrame h p).2)))
      | none =>
        stableSort obsLE
          (readFrame (setDateColumn (copyFrame h p).1 (copyFrame h p).2) (copyFrame h p).2)) =
      merge_with_existing masterStore (readFrame h p)
    rw [hnp]
    cases masterStore <;> simp [merge_with_existing]

/-- C10 witness: a one-frame heap; the caller's frame is unchanged and the
result is the pure merge. -/
theorem C10_merge_does_not_mutate_argument_witness :
    (0 < (FrameHeap.mk [[("Chile", 24240, (1 : ℚ))]]).frames.length) ∧
      (readFrame (mergeWithExistingProc ⟨[[("Chile", 24240, (1 : ℚ))]]⟩ none 0).1 0 =
          readFrame ⟨[[("Chile", 24240, (1 : ℚ))]]⟩ 0 ∧
        (mergeWithExistingProc ⟨[[("Chile", 24240, (1 : ℚ))]]⟩ none 0).2 =
          merge_with_existing none (readFrame ⟨[[("Chile", 24240, (1 : ℚ))]]⟩ 0)) :=
  ⟨by decide,
    C10_merge_does_not_mutate_argument ⟨[[("Chile", 24240, (1 : ℚ))]]⟩ none 0 (by decide)⟩

end VehicleScraper
